import Mathlib

/-!
Verification of the calorie-app food/meal data-access layer.

The definitions below are a shallow embedding of the Python sources
`calorie_count/src/DB/food_db.py`, `calorie_count/src/DB/meal_entry_db.py`,
`calorie_count/src/DB/models.py` and `calorie_count/src/DB/external/client.py`.
Database tables are embedded as lists of row structures in storage order;
SQLAlchemy queries become list traversals; Python floats become exact
rationals; raised exceptions become explicit error values.
-/

namespace CalorieApp

/-- Row of the `food` table (`FoodModel` in `models.py`).  `name` is the
primary key; `id` is an extra string column. -/
structure FoodModel where
  name : String
  portion : ℚ
  protein : ℚ
  fats : ℚ
  carbs : ℚ
  sugar : ℚ
  sodium : ℚ
  water : ℚ
  id : String
deriving DecidableEq, Repr

/-- The `Food` dataclass of `food_db.py` (the presentation record). -/
structure Food where
  name : String
  portion : ℚ
  proteins : ℚ
  fats : ℚ
  carbs : ℚ
  sugar : ℚ
  sodium : ℚ
  water : ℚ
  id : String
deriving DecidableEq, Repr

/-- Row of the `meal_entries` table (`MealEntryModel` in `models.py`). -/
structure MealEntryModel where
  id : String
  meal_id : String
  portion : ℚ
  date : String
deriving DecidableEq, Repr

/-- The two tables a `FoodDB` call can touch: the food catalog and the
meal-entry log, each in storage order. -/
structure DBState where
  foods : List FoodModel
  meal_entries : List MealEntryModel
deriving DecidableEq, Repr

/-- Construction of a `Food` dataclass value: `Food.__init__` followed by
`Food.__post_init__`.  On rational fields `x or 0` is the identity
(`0 or 0 = 0`), and `__post_init__` overwrites `id` with
`self.name or dt.now().isoformat()`; the ambient timestamp is passed in as
`now`. -/
def mkFood (name : String) (portion proteins fats carbs sugar sodium water : ℚ)
    (now : String) : Food :=
  { name := name, portion := portion, proteins := proteins, fats := fats,
    carbs := carbs, sugar := sugar, sodium := sodium, water := water,
    id := if name = "" then now else name }

/-- The `Food.from_model` classmethod.  Every `model.x or 0` is the identity
on rationals, `model.name or ''` is the identity on strings, and the `id`
argument is overwritten by `__post_init__` (see `mkFood`). -/
def Food.from_model (m : FoodModel) (now : String) : Food :=
  mkFood m.name m.portion m.protein m.fats m.carbs m.sugar m.sodium m.water now

/-- The `Food.to_model` method: copy every field into a fresh row object. -/
def Food.to_model (f : Food) : FoodModel :=
  { name := f.name, portion := f.portion, protein := f.proteins, fats := f.fats,
    carbs := f.carbs, sugar := f.sugar, sodium := f.sodium, water := f.water,
    id := f.id }

/-- The `FoodDB.get_food_by_name` method: `.filter(FoodModel.name == name).first()`
is the first row whose `name` column matches; if none matches the sentinel
`Food('', 0, 0, 0, 0, 0, 0, 0)` is returned. -/
def get_food_by_name (cat : List FoodModel) (name now : String) : Food :=
  match cat.find? (fun m => decide (m.name = name)) with
  | some m => Food.from_model m now
  | none => mkFood "" 0 0 0 0 0 0 0 now

/-- The `FoodDB.get_food_by_id` method, same shape as `get_food_by_name` but
matching on the `id` column. -/
def get_food_by_id (cat : List FoodModel) (id now : String) : Food :=
  match cat.find? (fun m => decide (m.id = id)) with
  | some m => Food.from_model m now
  | none => mkFood "" 0 0 0 0 0 0 0 now

/-- The in-place update branch of `FoodDB.add_food`: the first row whose name
matches has every column except `name` overwritten from `food` (the `name`
column is not assigned in the source; it already equals `food.name` by the
query filter). -/
def updateFirst (cat : List FoodModel) (food : Food) : List FoodModel :=
  match cat with
  | [] => []
  | m :: ms =>
    if m.name = food.name then { Food.to_model food with name := m.name } :: ms
    else m :: updateFirst ms food

/-- The `FoodDB.add_food` method: if a row with the food's name exists and
`update` is set, overwrite it in place; if none exists, insert the new row;
otherwise leave the table unchanged. -/
def add_food (cat : List FoodModel) (food : Food) (update : Bool) : List FoodModel :=
  match cat.find? (fun m => decide (m.name = food.name)) with
  | some _ => if update then updateFirst cat food else cat
  | none => cat ++ [Food.to_model food]

/-- A food row is referenced when some meal entry's `meal_id` equals the
row's `id` column (the join condition of `FoodDB.remove`). -/
def isReferenced (st : DBState) (f : FoodModel) : Prop :=
  ∃ e ∈ st.meal_entries, e.meal_id = f.id

instance (st : DBState) (f : FoodModel) : Decidable (isReferenced st f) :=
  List.decidableBEx _ st.meal_entries

/-- The `to_clear_name` list of `FoodDB.remove`: names of food rows in the
argument list that are joined to at least one meal entry, with falsy (empty)
names dropped.  The SQL join yields one output row per matching
(food, entry) pair; only membership in the resulting name list is ever used,
so the row multiplicity is irrelevant. -/
def to_clear_names (st : DBState) (names : List String) : List String :=
  ((st.foods.filter (fun f => decide (f.name ∈ names ∧ isReferenced st f))).map
      FoodModel.name).filter (fun n => decide (n ≠ ""))

/-- The `FoodDB.remove` method.  Returns the final state together with the
list of states committed to storage, in commit order: the source commits the
deletion batch and the name-clearing batch separately, each guarded by
non-emptiness of its list.  The delete/update statements themselves are
applied unconditionally here; with an empty name list they are no-ops, so
this matches the guarded statements of the source, and the guards decide
only whether a commit is issued. -/
def removeWithCommits (st : DBState) (names : List String) : DBState × List DBState :=
  if names = [] then (st, [])
  else
    let tc := to_clear_names st names
    let td := names.filter (fun n => decide (¬ n ∈ tc))
    let st1 : DBState :=
      { st with foods := st.foods.filter (fun f => decide (¬ f.name ∈ td)) }
    let clearRow : FoodModel → FoodModel :=
      fun f => if f.name ∈ tc then { f with name := "" } else f
    let st2 : DBState := { st1 with foods := st1.foods.map clearRow }
    (st2, (if td.isEmpty then [] else [st1]) ++ (if tc.isEmpty then [] else [st2]))

/-- The observable result of `FoodDB.remove`: the state after the call. -/
def remove (st : DBState) (names : List String) : DBState :=
  (removeWithCommits st names).1

/-- Errors `MealEntry.__post_init__` can raise: the `assert self.name or
self.food` validation failure, and the `ZeroDivisionError` from
`self.portion / self.food.portion`. -/
inductive MealEntryError where
  | missingNameAndFood
  | zeroDivision
deriving DecidableEq, Repr

/-- A fully resolved `MealEntry` dataclass value.  The `id` field is only
assigned later by `MealEntryDB.add_meal_entry` and is not modeled. -/
structure MealEntry where
  name : Option String
  portion : ℚ
  date : String
  food : Food
deriving DecidableEq, Repr

/-- Python truthiness of the optional `name` argument: `None` and the empty
string are falsy. -/
def truthyName : Option String → Bool
  | none => false
  | some s => decide (s ≠ "")

/-- Python truthiness of the optional `portion` argument: `None` and `0` are
falsy. -/
def truthyPortion : Option ℚ → Bool
  | none => false
  | some q => decide (q ≠ 0)

/-- The `if not self.date: self.date = dt.now().date().isoformat()` step:
a missing or empty date is replaced by today's date. -/
def resolveDate : Option String → String → String
  | none, today => today
  | some d, today => if d = "" then today else d

/-- The `MealEntry.__init__` plus `MealEntry.__post_init__` pipeline.
Returns the construction outcome together with the food catalog after the
call (the nameless path registers the inline food via `add_food`).
Steps, in source order: the `assert self.name or self.food` validation; the
catalog lookup when a truthy name but no food is supplied; the
auto-registration when `self.food` is set but the name is falsy (after the
lookup step `self.food` is always a truthy object, so that condition reduces
to the name being falsy); the date default; and the portion default/scaling,
where a falsy portion defaults to the food's reference portion and a
differing truthy portion rescales `carbs`, `fats`, `proteins`, `sodium` and
`sugar` (not `water`) by `portion / food.portion`, raising
`ZeroDivisionError` when the food's reference portion is zero. -/
def mkMealEntry (name : Option String) (portion : Option ℚ) (date : Option String)
    (food : Option Food) (cat : List FoodModel) (today now : String) :
    Except MealEntryError MealEntry × List FoodModel :=
  if truthyName name = true ∨ food.isSome then
    let fd : Food :=
      match food with
      | some f => f
      | none => get_food_by_name cat (name.getD "") now
    let cat1 : List FoodModel := if truthyName name = true then cat else add_food cat fd false
    let dt : String := resolveDate date today
    if truthyPortion portion = true then
      let p : ℚ := portion.getD 0
      if p = fd.portion then
        (Except.ok { name := name, portion := p, date := dt, food := fd }, cat1)
      else if fd.portion = 0 then (Except.error MealEntryError.zeroDivision, cat1)
      else
        let ratio : ℚ := p / fd.portion
        let scaled : Food :=
          { fd with
            carbs := fd.carbs * ratio
            fats := fd.fats * ratio
            proteins := fd.proteins * ratio
            sodium := fd.sodium * ratio
            sugar := fd.sugar * ratio }
        (Except.ok { name := name, portion := p, date := dt, food := scaled }, cat1)
    else
      (Except.ok { name := name, portion := fd.portion, date := dt, food := fd }, cat1)
  else (Except.error MealEntryError.missingNameAndFood, cat)

/-- Row of the external `foods` table (`ExternalFoodModel` in `models.py`). -/
structure ExternalFoodModel where
  description : String
  portions : String
  protein : ℚ
  fats : ℚ
  carbs : ℚ
  sodium : ℚ
  sugar : ℚ
  water : ℚ
deriving DecidableEq, Repr

/-- The `FoodData` dataclass of `external/client.py` (searchable food). -/
structure FoodData where
  description : String
  portions : String
  protein : ℚ
  fats : ℚ
  carbs : ℚ
  sodium : ℚ
  sugar : ℚ
  water : ℚ
deriving DecidableEq, Repr

/-- The `FoodData.__post_init__` step `self.description.replace('"', '')`:
every double-quote character (code point 34) is dropped. -/
def stripQuotes (s : String) : String :=
  String.mk (s.data.filter (fun c => decide (c ≠ Char.ofNat 34)))

/-- The `FoodData.from_model` classmethod followed by `__post_init__`:
quotes are stripped from the description, and every `model.x or 0` is the
identity on rationals. -/
def FoodData.from_model (m : ExternalFoodModel) : FoodData :=
  { description := stripQuotes m.description, portions := m.portions,
    protein := m.protein, fats := m.fats, carbs := m.carbs,
    sodium := m.sodium, sugar := m.sugar, water := m.water }

/-- Validity of a candidate matching block `(i, j, k)` between two character
lists: `a[i : i+k] == b[j : j+k]` with both slices in range. -/
def candOK (a b : List Char) (c : Nat × Nat × Nat) : Prop :=
  c.1 + c.2.2 ≤ a.length ∧ c.2.1 + c.2.2 ≤ b.length ∧
    (a.drop c.1).take c.2.2 = (b.drop c.2.1).take c.2.2

instance (a b : List Char) (c : Nat × Nat × Nat) : Decidable (candOK a b c) :=
  inferInstanceAs (Decidable (_ ∧ _ ∧ _))

/-- Ordering used by `SequenceMatcher.find_longest_match`: a candidate beats
the current best when its block is longer, or equally long and starting
earlier in `a`, or additionally equally early in `a` and starting earlier
in `b`. -/
def Better (c best : Nat × Nat × Nat) : Prop :=
  best.2.2 < c.2.2 ∨
    (c.2.2 = best.2.2 ∧ (c.1 < best.1 ∨ (c.1 = best.1 ∧ c.2.1 < best.2.1)))

instance (c best : Nat × Nat × Nat) : Decidable (Better c best) :=
  inferInstanceAs (Decidable (_ ∨ _))

/-- All candidate matching blocks between `a` and `b`. -/
def cands (a b : List Char) : List (Nat × Nat × Nat) :=
  (List.range (a.length + 1)).flatMap (fun i =>
    (List.range (b.length + 1)).flatMap (fun j =>
      (List.range (min (a.length - i) (b.length - j) + 1)).map (fun k => (i, j, k))))

/-- One selection step over the candidate list. -/
def chooseF (a b : List Char) (best c : Nat × Nat × Nat) : Nat × Nat × Nat :=
  if candOK a b c ∧ Better c best then c else best

/-- The `SequenceMatcher.find_longest_match` result on full ranges, specified
as the valid matching block maximal in length, with ties broken by the
earliest start in `a` and then in `b` (the documented behavior; no junk is
involved since `SequenceMatcher(None, a, b)` is called on short strings). -/
def findLongestMatch (a b : List Char) : Nat × Nat × Nat :=
  (cands a b).foldl (chooseF a b) (0, 0, 0)

/-- Total size of all matching blocks (`sum of block sizes` used by
`SequenceMatcher.ratio`): take the longest matching block and recurse on the
parts left of it and right of it.  Structural fuel makes the recursion
kernel-computable; `a.length + b.length` is always sufficient. -/
def matchSumF : Nat → List Char → List Char → Nat
  | 0, _, _ => 0
  | fuel + 1, a, b =>
    let r := findLongestMatch a b
    if r.2.2 = 0 then 0
    else
      r.2.2 + matchSumF fuel (a.take r.1) (b.take r.2.1) +
        matchSumF fuel (a.drop (r.1 + r.2.2)) (b.drop (r.2.1 + r.2.2))

/-- Total matched characters between two character lists. -/
def matchSum (a b : List Char) : Nat :=
  matchSumF (a.length + b.length) a b

/-- The `_calculate_ratio` helper of difflib: `2.0 * matches / length`, and
`1.0` when both sequences are empty. -/
def ratio (a b : List Char) : ℚ :=
  if a.length + b.length = 0 then 1
  else ((2 * matchSum a b : ℕ) : ℚ) / ((a.length + b.length : ℕ) : ℚ)

/-- The module-level `similarity` function of `external/client.py`:
`SequenceMatcher(None, str(a), str(b)).ratio()` (`str` is the identity on
strings). -/
def similarity (a b : String) : ℚ :=
  ratio a.data b.data

/-- Containment test modeling the SQL filter `description LIKE '%name%'`:
the needle occurs as a contiguous substring of the haystack. -/
def containsSub (hay needle : String) : Bool :=
  (List.range (hay.data.length + 1)).any
    (fun i => decide ((hay.data.drop i).take needle.data.length = needle.data))

/-- The similarity-scan loop of `get_similar_food_by_name`: walk the whole
table in storage order, collect rows whose description has similarity at
least `0.9` to the name, and stop once `limit` rows are collected (the
source appends, then breaks when the collected count reaches the limit). -/
def collectSimilar (rows : List ExternalFoodModel) (name : String) (limit : Nat) :
    List ExternalFoodModel :=
  match rows with
  | [] => []
  | r :: rs =>
    if (9 : ℚ) / 10 ≤ similarity r.description name then
      if limit ≤ 1 then [r] else r :: collectSimilar rs name (limit - 1)
    else collectSimilar rs name limit

/-- The `ExternalFoodsDB.get_similar_food_by_name` generator, as the list of
records it yields: first every row whose description contains the name, in
storage order, limited to `maxResults`; then, if fewer than `maxResults`
were yielded, rows collected by the similarity scan over the whole table
(not just the remaining rows), up to the remaining quota. -/
def get_similar_food_by_name (rows : List ExternalFoodModel) (name : String)
    (maxResults : Nat) : List FoodData :=
  let foods := (rows.filter (fun r => containsSub r.description name)).take maxResults
  let count := foods.length
  if count < maxResults then
    foods.map FoodData.from_model ++
      (collectSimilar rows name (maxResults - count)).map FoodData.from_model
  else foods.map FoodData.from_model

/-- Concrete catalog row used in the scaling examples (the apple of the
repository's own tests, with non-zero sodium to exercise every field). -/
def appleRow : FoodModel :=
  { name := "apple", portion := 100, protein := 3, fats := 2, carbs := 10,
    sugar := 4, sodium := 5, water := 86, id := "apple" }

/-- Singleton catalog holding `appleRow`. -/
def appleCat : List FoodModel := [appleRow]

/-- Concrete food value (already in `__post_init__` normal form). -/
def appleFood : Food := mkFood "apple" 100 3 2 10 4 5 86 "ts0"

/-- Concrete referenced food row for the `remove` examples. -/
def rowAlpha : FoodModel :=
  { name := "alpha", portion := 50, protein := 1, fats := 1, carbs := 1,
    sugar := 1, sodium := 1, water := 1, id := "alpha" }

/-- Concrete unreferenced food row for the `remove` examples. -/
def rowBeta : FoodModel :=
  { name := "beta", portion := 60, protein := 2, fats := 2, carbs := 2,
    sugar := 2, sodium := 2, water := 2, id := "beta" }

/-- Concrete food row whose name is not passed to `remove`. -/
def rowGamma : FoodModel :=
  { name := "gamma", portion := 70, protein := 3, fats := 3, carbs := 3,
    sugar := 3, sodium := 3, water := 3, id := "gamma" }

/-- Concrete meal entry referencing `rowAlpha` by id. -/
def entryAlpha : MealEntryModel :=
  { id := "2022-01-01T10:00:00", meal_id := "alpha", portion := 50,
    date := "2022-01-01" }

/-- Concrete database state for the `remove` examples: `alpha` is referenced
by a meal entry, `beta` and `gamma` are not. -/
def stRemove : DBState :=
  { foods := [rowAlpha, rowBeta, rowGamma], meal_entries := [entryAlpha] }

/-- External row whose description has similarity `10/11 ≥ 0.9` to the query
name `aaaab` without containing it. -/
def rowP : ExternalFoodModel :=
  { description := "aaaacb", portions := "", protein := 0, fats := 0,
    carbs := 0, sodium := 0, sugar := 0, water := 0 }

/-- External row whose description equals the query name `aaaab` (so it both
contains the name and has similarity `1`). -/
def rowC : ExternalFoodModel :=
  { description := "aaaab", portions := "", protein := 0, fats := 0,
    carbs := 0, sodium := 0, sugar := 0, water := 0 }

/-! Theorems.  Helper lemmas come first, then one theorem per claim. -/

/-- C4: for every valid food record (non-empty name), adding it to a catalog
not containing that name and looking it up by name returns a record with the
same name, portion and nutrient fields; and when the name is already present
with `update = false` the call leaves the catalog unchanged (first-write-wins). -/
theorem add_food_roundtrip_and_first_write_wins :
    (∀ (cat : List FoodModel) (food : Food) (now : String),
      food.name ≠ "" → (∀ m ∈ cat, m.name ≠ food.name) →
      (get_food_by_name (add_food cat food false) food.name now).name = food.name ∧
      (get_food_by_name (add_food cat food false) food.name now).portion = food.portion ∧
      (get_food_by_name (add_food cat food false) food.name now).proteins = food.proteins ∧
      (get_food_by_name (add_food cat food false) food.name now).fats = food.fats ∧
      (get_food_by_name (add_food cat food false) food.name now).carbs = food.carbs ∧
      (get_food_by_name (add_food cat food false) food.name now).sugar = food.sugar ∧
      (get_food_by_name (add_food cat food false) food.name now).sodium = food.sodium ∧
      (get_food_by_name (add_food cat food false) food.name now).water = food.water) ∧
    (∀ (cat : List FoodModel) (food : Food),
      (∃ m ∈ cat, m.name = food.name) → add_food cat food false = cat) := by
  constructor
  · intro cat food now _hname habs
    have hfind : cat.find? (fun m => decide (m.name = food.name)) = none := by
      rw [List.find?_eq_none]
      intro m hm
      simpa using habs m hm
    have hadd : add_food cat food false = cat ++ [Food.to_model food] := by
      rw [add_food, hfind]
    have hget : get_food_by_name (add_food cat food false) food.name now =
        Food.from_model (Food.to_model food) now := by
      rw [get_food_by_name, hadd, List.find?_append, hfind]
      simp [List.find?, Food.to_model]
    rw [hget]
    exact ⟨rfl, rfl, rfl, rfl, rfl, rfl, rfl, rfl⟩
  · intro cat food hmem
    obtain ⟨m, hm, hname⟩ := hmem
    have hsome : (cat.find? (fun m => decide (m.name = food.name))).isSome := by
      rw [List.find?_isSome]
      exact ⟨m, hm, by simpa using hname⟩
    obtain ⟨m0, hm0⟩ := Option.isSome_iff_exists.mp hsome
    rw [add_food, hm0]
    rfl

/-- C4 witness: instantiating the round-trip on the empty catalog and the
apple record, and first-write-wins on the singleton apple catalog. -/
theorem add_food_roundtrip_witness :
    (get_food_by_name (add_food [] appleFood false) appleFood.name "ts1").portion =
        appleFood.portion ∧
    add_food appleCat appleFood false = appleCat := by
  constructor
  · exact (add_food_roundtrip_and_first_write_wins.1 [] appleFood "ts1"
      (by decide) (by intro m hm; cases hm)).2.1
  · exact add_food_roundtrip_and_first_write_wins.2 appleCat appleFood
      ⟨appleRow, by decide, by decide⟩

/-- C7: catalog lookups by name and by id never signal absence with an error
or a null value: on a catalog with no matching row they return the sentinel
empty record (whose name is the empty string), and on a catalog with a
matching row they return that row's presentation record. -/
theorem get_food_sentinel_behavior :
    (∀ (cat : List FoodModel) (n now : String), (∀ f ∈ cat, f.name ≠ n) →
      get_food_by_name cat n now = mkFood "" 0 0 0 0 0 0 0 now ∧
      (get_food_by_name cat n now).name = "") ∧
    (∀ (cat : List FoodModel) (i now : String), (∀ f ∈ cat, f.id ≠ i) →
      get_food_by_id cat i now = mkFood "" 0 0 0 0 0 0 0 now ∧
      (get_food_by_id cat i now).name = "") ∧
    (∀ (cat : List FoodModel) (n now : String) (m : FoodModel),
      cat.find? (fun f => decide (f.name = n)) = some m →
      get_food_by_name cat n now = Food.from_model m now) ∧
    (∀ (cat : List FoodModel) (i now : String) (m : FoodModel),
      cat.find? (fun f => decide (f.id = i)) = some m →
      get_food_by_id cat i now = Food.from_model m now) := by
  refine ⟨?_, ?_, ?_, ?_⟩
  · intro cat n now habs
    have hfind : cat.find? (fun f => decide (f.name = n)) = none := by
      rw [List.find?_eq_none]
      intro f hf
      simpa using habs f hf
    rw [get_food_by_name, hfind]
    exact ⟨rfl, rfl⟩
  · intro cat i now habs
    have hfind : cat.find? (fun f => decide (f.id = i)) = none := by
      rw [List.find?_eq_none]
      intro f hf
      simpa using habs f hf
    rw [get_food_by_id, hfind]
    exact ⟨rfl, rfl⟩
  · intro cat n now m hfind
    rw [get_food_by_name, hfind]
  · intro cat i now m hfind
    rw [get_food_by_id, hfind]

/-- C7 witness: on the singleton apple catalog, looking up a missing name
returns the sentinel with empty name, and looking up the present name
returns the apple record. -/
theorem get_food_sentinel_witness :
    (get_food_by_name appleCat "zucchini" "ts2" = mkFood "" 0 0 0 0 0 0 0 "ts2" ∧
      (get_food_by_name appleCat "zucchini" "ts2").name = "") ∧
    get_food_by_name appleCat "apple" "ts2" = Food.from_model appleRow "ts2" := by
  constructor
  · exact get_food_sentinel_behavior.1 appleCat "zucchini" "ts2" (by decide)
  · exact get_food_sentinel_behavior.2.2.1 appleCat "apple" "ts2" appleRow (by decide)

/-- C9 counterexample: a meal entry constructed with a name (and a non-zero
portion) over an empty catalog raises a division error, so supplying at
least one of name/food does not guarantee that construction succeeds; only
the absence of a validation error is guaranteed. -/
theorem mealentry_supplied_name_can_still_fail :
    truthyName (some "pear") = true ∧
    (mkMealEntry (some "pear") (some 5) none none [] "2022-01-01" "ts3").1 =
      Except.error MealEntryError.zeroDivision := by
  constructor
  · decide
  · rfl

/-- C9 amended: construction raises the validation error exactly when
neither a truthy name nor an inline food record is supplied; when at least
one is supplied no validation error is raised (though construction may still
fail with a division error during portion scaling). -/
theorem mealentry_validation_error_iff (name : Option String) (portion : Option ℚ)
    (date : Option String) (food : Option Food) (cat : List FoodModel)
    (today now : String) :
    (mkMealEntry name portion date food cat today now).1 =
        Except.error MealEntryError.missingNameAndFood ↔
      truthyName name = false ∧ food = none := by
  by_cases h : truthyName name = true ∨ food.isSome
  · simp only [mkMealEntry]
    rw [if_pos h]
    constructor
    · intro hres
      exfalso
      revert hres
      split
      · split
        · simp
        · split
          · simp
          · simp
      · simp
    · rintro ⟨h1, h2⟩
      exfalso
      rcases h with h | h
      · rw [h1] at h
        exact Bool.false_ne_true h
      · rw [h2] at h
        simp at h
  · have h1 : truthyName name = false := by
      cases htn : truthyName name
      · rfl
      · exact absurd (Or.inl htn) h
    have h2 : food = none := by
      cases food
      · rfl
      · exact absurd (Or.inr rfl) h
    simp only [mkMealEntry]
    rw [if_neg h]
    simp [h1, h2]

/-- C10: constructing a meal entry from a name absent from the catalog
resolves to the sentinel empty food, whose reference portion is zero; with a
supplied non-zero portion the scaling division then hits the zero reference
portion and construction fails with the division error, while with no
portion supplied construction succeeds. -/
theorem mealentry_absent_name_division_unsafe
    (n : String) (p : ℚ) (d : Option String) (cat : List FoodModel)
    (today now : String)
    (hn : n ≠ "") (habs : ∀ f ∈ cat, f.name ≠ n) (hp : p ≠ 0) :
    (get_food_by_name cat n now).name = "" ∧
    (get_food_by_name cat n now).portion = 0 ∧
    (mkMealEntry (some n) (some p) d none cat today now).1 =
        Except.error MealEntryError.zeroDivision ∧
    ∃ e, (mkMealEntry (some n) none d none cat today now).1 = Except.ok e := by
  have hfind : cat.find? (fun f => decide (f.name = n)) = none := by
    rw [List.find?_eq_none]
    intro f hf
    simpa using habs f hf
  have hsent : get_food_by_name cat n now = mkFood "" 0 0 0 0 0 0 0 now := by
    rw [get_food_by_name, hfind]
  have htn : truthyName (some n) = true := by simp [truthyName, hn]
  refine ⟨by rw [hsent]; rfl, by rw [hsent]; rfl, ?_, ?_⟩
  · simp only [mkMealEntry, Option.getD_some, hsent]
    rw [if_pos (Or.inl htn)]
    simp [truthyPortion, hp, htn, mkFood]
  · refine ⟨⟨some n, 0, resolveDate d today, mkFood "" 0 0 0 0 0 0 0 now⟩, ?_⟩
    simp only [mkMealEntry, Option.getD_some, hsent]
    rw [if_pos (Or.inl htn)]
    simp [truthyPortion, htn, mkFood]

/-- C10 witness: over the empty catalog, the name `pear` with portion `5`
fails with the division error, while the same name with no portion succeeds. -/
theorem mealentry_absent_name_division_witness :
    (get_food_by_name [] "pear" "ts5").name = "" ∧
    (get_food_by_name [] "pear" "ts5").portion = 0 ∧
    (mkMealEntry (some "pear") (some 5) none none [] "2022-01-02" "ts5").1 =
        Except.error MealEntryError.zeroDivision ∧
    ∃ e, (mkMealEntry (some "pear") none none none [] "2022-01-02" "ts5").1 =
        Except.ok e :=
  mealentry_absent_name_division_unsafe "pear" 5 none [] "2022-01-02" "ts5"
    (by decide) (by intro f hf; cases hf) (by decide)

/-- C1 counterexample: with the apple catalog row (reference portion 100,
water 86) and a consumed portion of 200, the constructed entry's food has
proteins, fats, carbs, sugar and sodium doubled but `water` still 86, not
`86 * (200 / 100)`; so not every per-reference-portion nutrient field is
rescaled. -/
theorem mealentry_water_not_scaled_counterexample :
    (mkMealEntry (some "apple") (some 200) (some "2022-12-15") none appleCat
        "2022-12-15" "ts4").1 =
      Except.ok
        { name := some "apple", portion := 200, date := "2022-12-15",
          food := { name := "apple", portion := 100, proteins := 6, fats := 4,
                    carbs := 20, sugar := 8, sodium := 10, water := 86,
                    id := "apple" } } ∧
    (86 : ℚ) ≠ 86 * (200 / 100) := by
  constructor
  · have hget : get_food_by_name appleCat "apple" "ts4" =
        Food.from_model appleRow "ts4" := by decide
    have hdate : resolveDate (some "2022-12-15") "2022-12-15" = "2022-12-15" := rfl
    simp only [mkMealEntry, Option.getD_some, hget, hdate]
    rw [if_pos (Or.inl (by decide))]
    rw [if_pos (by decide)]
    rw [if_neg (by decide)]
    rw [if_neg (by decide)]
    simp only [Except.ok.injEq, MealEntry.mk.injEq, Food.mk.injEq, Food.from_model,
      mkFood, appleRow]
    norm_num
    decide
  · norm_num

/-- C1 amended: for a meal entry resolved by name lookup to catalog row `m`
with reference portion `P ≠ 0` and a supplied consumed portion `p` with
`p ≠ 0` and `p ≠ P`, the presentation record's proteins, fats, carbs, sugar
and sodium are the catalog values times `p / P`, while `water` (and the food's
own portion field) keep their catalog values, and the catalog itself is
unchanged by construction. -/
theorem mealentry_scaling_amended (cat : List FoodModel) (m : FoodModel)
    (n : String) (p : ℚ) (d : Option String) (today now : String)
    (hn : n ≠ "") (hfind : cat.find? (fun f => decide (f.name = n)) = some m)
    (hp : p ≠ 0) (hne : p ≠ m.portion) (hm : m.portion ≠ 0) :
    (mkMealEntry (some n) (some p) d none cat today now).2 = cat ∧
    ∃ e, (mkMealEntry (some n) (some p) d none cat today now).1 = Except.ok e ∧
      e.portion = p ∧
      e.food.proteins = m.protein * (p / m.portion) ∧
      e.food.fats = m.fats * (p / m.portion) ∧
      e.food.carbs = m.carbs * (p / m.portion) ∧
      e.food.sugar = m.sugar * (p / m.portion) ∧
      e.food.sodium = m.sodium * (p / m.portion) ∧
      e.food.water = m.water ∧
      e.food.portion = m.portion := by
  have hget : get_food_by_name cat n now = Food.from_model m now := by
    rw [get_food_by_name, hfind]
  have htn : truthyName (some n) = true := by simp [truthyName, hn]
  simp only [mkMealEntry, Option.getD_some, hget]
  rw [if_pos (Or.inl htn)]
  rw [if_pos htn]
  rw [if_pos (show truthyPortion (some p) = true from by simp [truthyPortion, hp])]
  rw [if_neg (show ¬p = (Food.from_model m now).portion from hne)]
  rw [if_neg (show ¬(Food.from_model m now).portion = 0 from hm)]
  exact ⟨rfl, _, rfl, rfl, rfl, rfl, rfl, rfl, rfl, rfl, rfl⟩

/-- C1 amended witness: the apple row with consumed portion 200 yields
doubled proteins, fats, carbs, sugar and sodium, unchanged water, and an
unchanged catalog. -/
theorem mealentry_scaling_amended_witness :
    (mkMealEntry (some "apple") (some 200) none none appleCat "td" "ts6").2 =
        appleCat ∧
    ∃ e, (mkMealEntry (some "apple") (some 200) none none appleCat "td" "ts6").1 =
        Except.ok e ∧
      e.portion = 200 ∧
      e.food.proteins = appleRow.protein * (200 / appleRow.portion) ∧
      e.food.fats = appleRow.fats * (200 / appleRow.portion) ∧
      e.food.carbs = appleRow.carbs * (200 / appleRow.portion) ∧
      e.food.sugar = appleRow.sugar * (200 / appleRow.portion) ∧
      e.food.sodium = appleRow.sodium * (200 / appleRow.portion) ∧
      e.food.water = appleRow.water ∧
      e.food.portion = appleRow.portion :=
  mealentry_scaling_amended appleCat appleRow "apple" 200 none "td" "ts6"
    (by decide) (by decide) (by decide) (by decide) (by decide)

/-- Mapping a function over a filtered list is a `filterMap`. -/
theorem filter_map_eq_filterMap {α β : Type} (p : α → Bool) (g : α → β) (l : List α) :
    (l.filter p).map g = l.filterMap (fun x => if p x then some (g x) else none) := by
  induction l with
  | nil => rfl
  | cons x xs ih => by_cases h : p x <;> simp [List.filter_cons, List.filterMap_cons, h, ih]

/-- Length accounting for a `filterMap` whose droppings are exactly the
elements satisfying `p`. -/
theorem length_filterMap_add_filter {α β : Type} (g : α → Option β) (p : α → Bool)
    (l : List α) (h : ∀ x ∈ l, g x = none ↔ p x = true) :
    (l.filterMap g).length + (l.filter p).length = l.length := by
  induction l with
  | nil => rfl
  | cons x xs ih =>
    have hx := h x (List.mem_cons_self x xs)
    have ihx := ih (fun y hy => h y (List.mem_cons_of_mem x hy))
    cases hgx : g x with
    | none =>
      have hpx : p x = true := hx.mp hgx
      simp only [List.filterMap_cons, hgx, List.filter_cons, hpx, if_true, List.length_cons]
      omega
    | some b =>
      have hpx : p x = false := by
        cases hpx0 : p x
        · rfl
        · rw [hx.mpr hpx0] at hgx
          cases hgx
      simp only [List.filterMap_cons, hgx, List.filter_cons, hpx, Bool.false_eq_true,
        if_false, List.length_cons]
      omega

/-- Membership in the `to_clear_name` list of `FoodDB.remove`. -/
theorem mem_to_clear_names (st : DBState) (names : List String) (n : String) :
    n ∈ to_clear_names st names ↔
      n ≠ "" ∧ ∃ f ∈ st.foods, f.name = n ∧ f.name ∈ names ∧ isReferenced st f := by
  simp only [to_clear_names, List.mem_filter, List.mem_map, decide_eq_true_eq]
  constructor
  · rintro ⟨⟨f, hf, hfn⟩, hn⟩
    exact ⟨hn, f, hf.1, hfn, hf.2.1, hf.2.2⟩
  · rintro ⟨hn, f, hf, hfn, hmem, href⟩
    exact ⟨⟨f, ⟨hf, hmem, href⟩, hfn⟩, hn⟩

/-- Under unique food names, a row's name is in `to_clear_name` exactly when
that row itself is listed and referenced. -/
theorem name_in_to_clear_iff (st : DBState) (names : List String)
    (hnd : (st.foods.map FoodModel.name).Nodup) (hne : ¬ "" ∈ names)
    (f : FoodModel) (hf : f ∈ st.foods) :
    f.name ∈ to_clear_names st names ↔ (f.name ∈ names ∧ isReferenced st f) := by
  rw [mem_to_clear_names]
  constructor
  · rintro ⟨_, g, hg, hgn, hgmem, hgref⟩
    have hgf : g = f := List.inj_on_of_nodup_map hnd hg hf hgn
    rw [hgf] at hgmem hgref
    exact ⟨hgmem, hgref⟩
  · rintro ⟨hmem, href⟩
    have hn : f.name ≠ "" := fun h0 => hne (h0 ▸ hmem)
    exact ⟨hn, f, hf, rfl, hmem, href⟩

/-- Under unique food names, a row's name is in the `to_delete` list exactly
when that row itself is listed and unreferenced. -/
theorem name_in_to_delete_iff (st : DBState) (names : List String)
    (hnd : (st.foods.map FoodModel.name).Nodup) (hne : ¬ "" ∈ names)
    (f : FoodModel) (hf : f ∈ st.foods) :
    f.name ∈ names.filter (fun n => decide (¬ n ∈ to_clear_names st names)) ↔
      (f.name ∈ names ∧ ¬ isReferenced st f) := by
  rw [List.mem_filter]
  rw [decide_eq_true_eq]
  constructor
  · rintro ⟨h1, h2⟩
    exact ⟨h1, fun hr => h2 ((name_in_to_clear_iff st names hnd hne f hf).mpr ⟨h1, hr⟩)⟩
  · rintro ⟨h1, h2⟩
    exact ⟨h1, fun hc => h2 (((name_in_to_clear_iff st names hnd hne f hf).mp hc).2)⟩

/-- C2: assuming the food-table primary-key invariant (unique names) and an
argument list without the empty name, `remove` clears the name of every
listed row that is referenced by a meal entry (keeping the row), deletes
every listed row that is unreferenced, leaves unlisted rows untouched,
leaves the meal-entry table untouched, and shrinks the food-table row count
by exactly the number of listed unreferenced rows. -/
theorem remove_partitions_referenced_vs_unreferenced
    (st : DBState) (names : List String)
    (hnd : (st.foods.map FoodModel.name).Nodup) (hne : ¬ "" ∈ names) :
    (remove st names).foods = st.foods.filterMap (fun f =>
      if f.name ∈ names then
        if isReferenced st f then some { f with name := "" } else none
      else some f) ∧
    (remove st names).meal_entries = st.meal_entries ∧
    (remove st names).foods.length +
        (st.foods.filter (fun f => decide (f.name ∈ names ∧ ¬ isReferenced st f))).length =
      st.foods.length := by
  have houtcome : ∀ f ∈ st.foods,
      (if f.name ∈ names then
        if isReferenced st f then some { f with name := "" } else none
      else some f) =
      (if (fun f => decide (¬ f.name ∈ names.filter
            (fun n => decide (¬ n ∈ to_clear_names st names)))) f = true then
        some ((fun f => if f.name ∈ to_clear_names st names then { f with name := "" } else f) f)
      else none) := by
    intro f hf
    by_cases h1 : f.name ∈ names
    · by_cases h2 : isReferenced st f
      · have htc : f.name ∈ to_clear_names st names :=
          (name_in_to_clear_iff st names hnd hne f hf).mpr ⟨h1, h2⟩
        have htd : ¬ f.name ∈ names.filter (fun n => decide (¬ n ∈ to_clear_names st names)) :=
          fun hd => ((name_in_to_delete_iff st names hnd hne f hf).mp hd).2 h2
        simp [h1, h2, htc, htd]
      · have htd : f.name ∈ names.filter (fun n => decide (¬ n ∈ to_clear_names st names)) :=
          (name_in_to_delete_iff st names hnd hne f hf).mpr ⟨h1, h2⟩
        have htc : ¬ f.name ∈ to_clear_names st names :=
          fun hc => h2 (((name_in_to_clear_iff st names hnd hne f hf).mp hc).2)
        simp [h1, h2, htd, htc]
    · have htc : ¬ f.name ∈ to_clear_names st names := fun hc => by
        obtain ⟨-, g, -, hgn, hgmem, -⟩ := (mem_to_clear_names st names f.name).mp hc
        exact h1 (hgn ▸ hgmem)
      have htd : ¬ f.name ∈ names.filter (fun n => decide (¬ n ∈ to_clear_names st names)) :=
        fun hd => h1 (List.mem_filter.mp hd).1
      simp [h1, htc, htd]
  by_cases hnames : names = []
  · subst hnames
    refine ⟨?_, rfl, ?_⟩
    · simp [remove, removeWithCommits]
    · simp [remove, removeWithCommits]
  · have hfoods : (remove st names).foods =
        (st.foods.filter (fun f => decide (¬ f.name ∈ names.filter
            (fun n => decide (¬ n ∈ to_clear_names st names))))).map
          (fun f => if f.name ∈ to_clear_names st names then { f with name := "" } else f) := by
      rw [remove, removeWithCommits, if_neg hnames]
    have hentries : (remove st names).meal_entries = st.meal_entries := by
      rw [remove, removeWithCommits, if_neg hnames]
    have hmain : (remove st names).foods = st.foods.filterMap (fun f =>
        if f.name ∈ names then
          if isReferenced st f then some { f with name := "" } else none
        else some f) := by
      rw [hfoods, filter_map_eq_filterMap]
      exact (List.filterMap_congr houtcome).symm
    refine ⟨hmain, hentries, ?_⟩
    rw [hmain]
    refine length_filterMap_add_filter _ _ _ ?_
    intro f hf
    by_cases h1 : f.name ∈ names
    · by_cases h2 : isReferenced st f
      · simp [h1, h2]
      · simp [h1, h2]
    · simp [h1]

/-- C2 witness: on the concrete state where `alpha` is referenced and
`beta`, `gamma` are not, removing `alpha` and `beta` clears `alpha`,
deletes `beta`, keeps `gamma`, keeps the entries, and drops the row count
by one. -/
theorem remove_partitions_witness :
    (remove stRemove ["alpha", "beta"]).foods = stRemove.foods.filterMap (fun f =>
      if f.name ∈ ["alpha", "beta"] then
        if isReferenced stRemove f then some { f with name := "" } else none
      else some f) ∧
    (remove stRemove ["alpha", "beta"]).meal_entries = stRemove.meal_entries ∧
    (remove stRemove ["alpha", "beta"]).foods.length +
        (stRemove.foods.filter (fun f => decide (f.name ∈ ["alpha", "beta"] ∧
          ¬ isReferenced stRemove f))).length =
      stRemove.foods.length :=
  remove_partitions_referenced_vs_unreferenced stRemove ["alpha", "beta"]
    (by decide) (by decide)

/-- C3 counterexample: removing `alpha` (referenced) and `beta`
(unreferenced) in one call commits twice; the first committed state has
`beta` already deleted but `alpha` not yet cleared, and differs from both
the pre-call state and the post-call state, so a storage failure between
the two commits observes a state that is neither. -/
theorem remove_not_atomic_counterexample :
    (removeWithCommits stRemove ["alpha", "beta"]).2 =
      [{ foods := [rowAlpha, rowGamma], meal_entries := [entryAlpha] },
        { foods := [{ rowAlpha with name := "" }, rowGamma], meal_entries := [entryAlpha] }] ∧
    ({ foods := [rowAlpha, rowGamma], meal_entries := [entryAlpha] } : DBState) ≠ stRemove ∧
    ({ foods := [rowAlpha, rowGamma], meal_entries := [entryAlpha] } : DBState) ≠
      (removeWithCommits stRemove ["alpha", "beta"]).1 := by
  refine ⟨?_, by decide, by decide⟩
  decide

/-- C3 amended: when the argument list contains both a referenced and an
unreferenced food name (unique names, no empty name), `remove` issues two
separate commits: first the deletion batch alone, then the final state with
names cleared; each batch is atomic, but the intermediate committed state
has the deletions applied and the names not yet cleared. -/
theorem remove_commits_in_two_batches (st : DBState) (names : List String)
    (hnd : (st.foods.map FoodModel.name).Nodup) (hne : ¬ "" ∈ names)
    (hdel : ∃ f ∈ st.foods, f.name ∈ names ∧ ¬ isReferenced st f)
    (hclr : ∃ f ∈ st.foods, f.name ∈ names ∧ isReferenced st f) :
    ∃ mid : DBState,
      (removeWithCommits st names).2 = [mid, (removeWithCommits st names).1] ∧
      mid.meal_entries = st.meal_entries ∧
      mid.foods = st.foods.filter
        (fun f => decide (¬ (f.name ∈ names ∧ ¬ isReferenced st f))) := by
  obtain ⟨fd, hfd, hfdn, hfdr⟩ := hdel
  obtain ⟨fc, hfc, hfcn, hfcr⟩ := hclr
  have hnames : names ≠ [] := fun h0 => by rw [h0] at hfdn; cases hfdn
  have htd : fd.name ∈ names.filter (fun n => decide (¬ n ∈ to_clear_names st names)) :=
    (name_in_to_delete_iff st names hnd hne fd hfd).mpr ⟨hfdn, hfdr⟩
  have htc : fc.name ∈ to_clear_names st names :=
    (name_in_to_clear_iff st names hnd hne fc hfc).mpr ⟨hfcn, hfcr⟩
  have htdne : (names.filter (fun n => decide (¬ n ∈ to_clear_names st names))).isEmpty = false := by
    rw [List.isEmpty_eq_false]
    exact List.ne_nil_of_mem htd
  have htcne : (to_clear_names st names).isEmpty = false := by
    rw [List.isEmpty_eq_false]
    exact List.ne_nil_of_mem htc
  refine ⟨{ st with foods := st.foods.filter (fun f => decide (¬ f.name ∈ names.filter
      (fun n => decide (¬ n ∈ to_clear_names st names)))) }, ?_, rfl, ?_⟩
  · rw [removeWithCommits, if_neg hnames]
    simp only [htdne, htcne, Bool.false_eq_true, if_false]
    rfl
  · refine List.filter_congr ?_
    intro f hf
    rw [decide_eq_decide]
    exact not_congr (name_in_to_delete_iff st names hnd hne f hf)

/-- C3 amended witness: the two-commit structure instantiated on the
concrete state with `alpha` referenced and `beta` unreferenced. -/
theorem remove_commits_in_two_batches_witness :
    ∃ mid : DBState,
      (removeWithCommits stRemove ["alpha", "beta"]).2 =
        [mid, (removeWithCommits stRemove ["alpha", "beta"]).1] ∧
      mid.meal_entries = stRemove.meal_entries ∧
      mid.foods = stRemove.foods.filter
        (fun f => decide (¬ (f.name ∈ ["alpha", "beta"] ∧ ¬ isReferenced stRemove f))) :=
  remove_commits_in_two_batches stRemove ["alpha", "beta"] (by decide) (by decide)
    ⟨rowBeta, by decide, by decide, by decide⟩
    ⟨rowAlpha, by decide, by decide, by decide⟩

/-- The base candidate `(0, 0, 0)` is always a valid matching block. -/
theorem candOK_zero (a b : List Char) : candOK a b (0, 0, 0) :=
  ⟨Nat.zero_le _, Nat.zero_le _, rfl⟩

/-- Folding the selection step preserves validity of the current best. -/
theorem candOK_foldl (a b : List Char) :
    ∀ (l : List (Nat × Nat × Nat)) (init : Nat × Nat × Nat),
      candOK a b init → candOK a b (l.foldl (chooseF a b) init) := by
  intro l
  induction l with
  | nil => exact fun init h => h
  | cons x xs ih =>
    intro init h
    rw [List.foldl_cons]
    apply ih
    by_cases hc : candOK a b x ∧ Better x init
    · rw [chooseF, if_pos hc]
      exact hc.1
    · rw [chooseF, if_neg hc]
      exact h

/-- The selected block length never decreases along the fold. -/
theorem k_le_foldl (a b : List Char) :
    ∀ (l : List (Nat × Nat × Nat)) (init : Nat × Nat × Nat),
      init.2.2 ≤ (l.foldl (chooseF a b) init).2.2 := by
  intro l
  induction l with
  | nil => exact fun init => Nat.le_refl _
  | cons x xs ih =>
    intro init
    rw [List.foldl_cons]
    refine Nat.le_trans ?_ (ih (chooseF a b init x))
    by_cases hc : candOK a b x ∧ Better x init
    · rw [chooseF, if_pos hc]
      rcases hc.2 with h | ⟨h, -⟩
      · exact Nat.le_of_lt h
      · exact Nat.le_of_eq h.symm
    · rw [chooseF, if_neg hc]

/-- Every valid candidate in the scanned list has block length at most the
fold result's. -/
theorem k_mem_le_foldl (a b : List Char) :
    ∀ (l : List (Nat × Nat × Nat)) (init c : Nat × Nat × Nat),
      c ∈ l → candOK a b c → c.2.2 ≤ (l.foldl (chooseF a b) init).2.2 := by
  intro l
  induction l with
  | nil => intro init c hc; cases hc
  | cons x xs ih =>
    intro init c hc hok
    rw [List.foldl_cons]
    rcases List.mem_cons.mp hc with rfl | hmem
    · refine Nat.le_trans ?_ (k_le_foldl a b xs (chooseF a b init c))
      by_cases hcb : candOK a b c ∧ Better c init
      · rw [chooseF, if_pos hcb]
      · rw [chooseF, if_neg hcb]
        have hnb : ¬ Better c init := fun hb => hcb ⟨hok, hb⟩
        exact Nat.le_of_not_lt (fun h => hnb (Or.inl h))
    · exact ih (chooseF a b init x) c hmem hok

/-- The longest-match result is a valid matching block. -/
theorem candOK_findLongestMatch (a b : List Char) :
    candOK a b (findLongestMatch a b) :=
  candOK_foldl a b (cands a b) (0, 0, 0) (candOK_zero a b)

/-- Every valid matching block appears in the candidate enumeration. -/
theorem mem_cands (a b : List Char) (i j k : Nat) (h : candOK a b (i, j, k)) :
    (i, j, k) ∈ cands a b := by
  obtain ⟨h1, h2, -⟩ := h
  have h1a : i + k ≤ a.length := h1
  have h2a : j + k ≤ b.length := h2
  rw [cands]
  refine List.mem_flatMap.mpr ⟨i, List.mem_range.mpr (by omega), ?_⟩
  refine List.mem_flatMap.mpr ⟨j, List.mem_range.mpr (by omega), ?_⟩
  refine List.mem_map.mpr ⟨k, List.mem_range.mpr ?_, rfl⟩
  have hmin : k ≤ min (a.length - i) (b.length - j) :=
    Nat.le_min.mpr ⟨by omega, by omega⟩
  omega

/-- Maximality of the longest-match block length. -/
theorem k_max_findLongestMatch (a b : List Char) (i j k : Nat)
    (h : candOK a b (i, j, k)) : k ≤ (findLongestMatch a b).2.2 :=
  k_mem_le_foldl a b (cands a b) (0, 0, 0) (i, j, k) (mem_cands a b i j k h) h

/-- The match total on an empty left sequence is zero. -/
theorem matchSumF_nil_left (fuel : Nat) (b : List Char) :
    matchSumF fuel [] b = 0 := by
  cases fuel with
  | zero => rfl
  | succ f =>
    have hOK := candOK_findLongestMatch ([] : List Char) b
    have hk : (findLongestMatch ([] : List Char) b).2.2 = 0 := by
      have h1 := hOK.1
      simp only [List.length_nil] at h1
      omega
    simp [matchSumF, hk]

/-- The match total is bounded by the left length. -/
theorem matchSumF_le_left :
    ∀ (fuel : Nat) (a b : List Char), matchSumF fuel a b ≤ a.length := by
  intro fuel
  induction fuel with
  | zero => exact fun a b => Nat.zero_le _
  | succ f ih =>
    intro a b
    have hOK := candOK_findLongestMatch a b
    by_cases hk : (findLongestMatch a b).2.2 = 0
    · simp [matchSumF, hk]
    · simp only [matchSumF, if_neg hk]
      have h1 := ih (a.take (findLongestMatch a b).1) (b.take (findLongestMatch a b).2.1)
      have h2 := ih (a.drop ((findLongestMatch a b).1 + (findLongestMatch a b).2.2))
        (b.drop ((findLongestMatch a b).2.1 + (findLongestMatch a b).2.2))
      rw [List.length_take] at h1
      rw [List.length_drop] at h2
      have h1m : matchSumF f (a.take (findLongestMatch a b).1)
          (b.take (findLongestMatch a b).2.1) ≤ (findLongestMatch a b).1 :=
        Nat.le_trans h1 (Nat.min_le_left _ _)
      have hi := hOK.1
      omega

/-- The match total is bounded by the right length. -/
theorem matchSumF_le_right :
    ∀ (fuel : Nat) (a b : List Char), matchSumF fuel a b ≤ b.length := by
  intro fuel
  induction fuel with
  | zero => exact fun a b => Nat.zero_le _
  | succ f ih =>
    intro a b
    have hOK := candOK_findLongestMatch a b
    by_cases hk : (findLongestMatch a b).2.2 = 0
    · simp [matchSumF, hk]
    · simp only [matchSumF, if_neg hk]
      have h1 := ih (a.take (findLongestMatch a b).1) (b.take (findLongestMatch a b).2.1)
      have h2 := ih (a.drop ((findLongestMatch a b).1 + (findLongestMatch a b).2.2))
        (b.drop ((findLongestMatch a b).2.1 + (findLongestMatch a b).2.2))
      rw [List.length_take] at h1
      rw [List.length_drop] at h2
      have h1m : matchSumF f (a.take (findLongestMatch a b).1)
          (b.take (findLongestMatch a b).2.1) ≤ (findLongestMatch a b).2.1 :=
        Nat.le_trans h1 (Nat.min_le_left _ _)
      have hj := hOK.2.1
      omega

/-- On identical sequences the longest block is the whole sequence, so the
match total is the full length. -/
theorem matchSum_self (l : List Char) : matchSum l l = l.length := by
  by_cases hl : l.length = 0
  · have hnil : l = [] := List.length_eq_zero.mp hl
    rw [hnil]
    rfl
  · have hOK := candOK_findLongestMatch l l
    have hmax : l.length ≤ (findLongestMatch l l).2.2 :=
      k_max_findLongestMatch l l 0 0 l.length ⟨by simp, by simp, rfl⟩
    have hi : (findLongestMatch l l).1 = 0 := by
      have := hOK.1
      omega
    have hj : (findLongestMatch l l).2.1 = 0 := by
      have := hOK.2.1
      omega
    have hk : (findLongestMatch l l).2.2 = l.length := by
      have := hOK.1
      omega
    obtain ⟨f, hf⟩ : ∃ f, l.length + l.length = f + 1 := ⟨l.length + l.length - 1, by omega⟩
    rw [matchSum, hf]
    simp only [matchSumF, hi, hj, hk]
    rw [if_neg hl]
    simp [matchSumF_nil_left]

/-- C8: the similarity ratio is `1` on every pair of identical strings
(including the empty string), and lies in `[0, 1]` on every pair of strings. -/
theorem similarity_self_eq_one_and_bounds :
    (∀ s : String, similarity s s = 1) ∧
    (∀ a b : String, 0 ≤ similarity a b ∧ similarity a b ≤ 1) := by
  constructor
  · intro s
    rw [similarity, ratio]
    by_cases h0 : s.data.length + s.data.length = 0
    · rw [if_pos h0]
    · rw [if_neg h0, matchSum_self]
      have h2 : ((s.data.length + s.data.length : ℕ) : ℚ) ≠ 0 := Nat.cast_ne_zero.mpr h0
      rw [div_eq_one_iff_eq h2]
      push_cast
      ring
  · intro a b
    rw [similarity, ratio]
    by_cases h0 : a.data.length + b.data.length = 0
    · rw [if_pos h0]
      norm_num
    · rw [if_neg h0]
      have hM1 : matchSum a.data b.data ≤ a.data.length := matchSumF_le_left _ _ _
      have hM2 : matchSum a.data b.data ≤ b.data.length := matchSumF_le_right _ _ _
      constructor
      · positivity
      · rw [div_le_one (by exact_mod_cast Nat.pos_of_ne_zero h0)]
        exact_mod_cast (by omega : 2 * matchSum a.data b.data ≤ a.data.length + b.data.length)

set_option maxRecDepth 16000 in
/-- The description `aaaacb` has similarity `10/11 ≥ 0.9` to the name
`aaaab` (longest blocks `aaaa` and `b`, nine matched characters over eleven). -/
theorem sim_aaaacb_aaaab_ge : (9 : ℚ) / 10 ≤ similarity "aaaacb" "aaaab" := by
  have hm : matchSum "aaaacb".data "aaaab".data = 5 := by decide
  rw [similarity, ratio, if_neg (by decide), hm]
  rw [show ("aaaacb".data.length + "aaaab".data.length : ℕ) = 11 from by decide]
  norm_num

set_option maxRecDepth 16000 in
/-- The description `aaaab` has similarity `1 ≥ 0.9` to the name `aaaab`. -/
theorem sim_aaaab_aaaab_ge : (9 : ℚ) / 10 ≤ similarity "aaaab" "aaaab" := by
  have hm : matchSum "aaaab".data "aaaab".data = 5 := by decide
  rw [similarity, ratio, if_neg (by decide), hm]
  rw [show ("aaaab".data.length + "aaaab".data.length : ℕ) = 10 from by decide]
  norm_num

/-- The similarity-scan loop collects exactly the first `limit` rows of the
whole table whose description is at least `0.9`-similar to the name. -/
theorem collectSimilar_eq_take_filter (name : String) :
    ∀ (rows : List ExternalFoodModel) (limit : Nat), 1 ≤ limit →
      collectSimilar rows name limit =
        (rows.filter (fun r =>
          decide ((9 : ℚ) / 10 ≤ similarity r.description name))).take limit := by
  intro rows
  induction rows with
  | nil =>
    intro limit _
    simp [collectSimilar]
  | cons r rs ih =>
    intro limit hlim
    rw [collectSimilar]
    by_cases hsim : (9 : ℚ) / 10 ≤ similarity r.description name
    · rw [if_pos hsim, List.filter_cons, if_pos (decide_eq_true hsim)]
      by_cases h1 : limit ≤ 1
      · rw [if_pos h1]
        have hlim1 : limit = 1 := by omega
        rw [hlim1]
        rfl
      · rw [if_neg h1, ih (limit - 1) (by omega)]
        obtain ⟨k, hk⟩ : ∃ k, limit = k + 1 := ⟨limit - 1, by omega⟩
        rw [hk]
        simp [List.take_succ_cons]
    · rw [if_neg hsim, List.filter_cons, if_neg (by simpa using hsim)]
      exact ih limit hlim

/-- Decomposition of `get_similar_food_by_name`: the yielded sequence is the
substring matches (storage order, up to the limit) followed by the first
rows of the whole table with similarity at least `0.9`, up to the remaining
quota. -/
theorem get_similar_eq_append (rows : List ExternalFoodModel) (name : String) (m : Nat) :
    get_similar_food_by_name rows name m =
      ((rows.filter (fun r => containsSub r.description name)).take m).map
          FoodData.from_model ++
        ((rows.filter (fun r =>
            decide ((9 : ℚ) / 10 ≤ similarity r.description name))).take
          (m - ((rows.filter (fun r => containsSub r.description name)).take m).length)).map
          FoodData.from_model := by
  simp only [get_similar_food_by_name]
  by_cases h : ((rows.filter (fun r => containsSub r.description name)).take m).length < m
  · rw [if_pos h, collectSimilar_eq_take_filter name rows _ (by omega)]
  · rw [if_neg h]
    have hle : ((rows.filter (fun r => containsSub r.description name)).take m).length ≤ m := by
      rw [List.length_take]
      exact Nat.min_le_left _ _
    have heq : m - ((rows.filter (fun r => containsSub r.description name)).take m).length = 0 := by
      omega
    rw [heq]
    simp

/-- C5 counterexample: with rows `aaaacb` (similar, not containing) and
`aaaab` (containing and similar) and `max_results = 3`, the yielded sequence
is `aaaab`, `aaaacb`, `aaaab`: the last yielded record contains the query
name yet comes after the pure-similarity match `aaaacb`, so containment
yields do not all precede pure-similarity yields. -/
theorem find_similar_order_counterexample :
    get_similar_food_by_name [rowP, rowC] "aaaab" 3 =
      [FoodData.from_model rowC, FoodData.from_model rowP, FoodData.from_model rowC] ∧
    containsSub (FoodData.from_model rowC).description "aaaab" = true ∧
    containsSub (FoodData.from_model rowP).description "aaaab" = false := by
  refine ⟨?_, by decide, by decide⟩
  have hsp : (9 : ℚ) / 10 ≤ similarity rowP.description "aaaab" := sim_aaaacb_aaaab_ge
  have hsc : (9 : ℚ) / 10 ≤ similarity rowC.description "aaaab" := sim_aaaab_aaaab_ge
  have hcol : collectSimilar [rowP, rowC] "aaaab" 2 = [rowP, rowC] := by
    simp only [collectSimilar]
    rw [if_pos hsp, if_neg (show ¬(2 : Nat) ≤ 1 from by decide)]
    rw [if_pos hsc, if_pos (show (2 : Nat) - 1 ≤ 1 from by decide)]
  have hfilter : [rowP, rowC].filter (fun r => containsSub r.description "aaaab") = [rowC] := by
    decide
  simp only [get_similar_food_by_name, hfilter]
  rw [show List.take 3 [rowC] = [rowC] from rfl]
  rw [if_pos (show [rowC].length < 3 from by decide)]
  rw [show (3 : Nat) - [rowC].length = 2 from rfl]
  rw [hcol]
  rfl

/-- C5 amended: the generator yields at most `max_results` records, and all
first-phase (substring) yields precede all second-phase (similarity) yields;
but the second phase rescans the whole table, so a record containing the
name can be yielded a second time after a pure-similarity match. -/
theorem find_similar_length_and_decomposition (rows : List ExternalFoodModel)
    (name : String) (m : Nat) :
    (get_similar_food_by_name rows name m).length ≤ m ∧
    get_similar_food_by_name rows name m =
      ((rows.filter (fun r => containsSub r.description name)).take m).map
          FoodData.from_model ++
        ((rows.filter (fun r =>
            decide ((9 : ℚ) / 10 ≤ similarity r.description name))).take
          (m - ((rows.filter (fun r => containsSub r.description name)).take m).length)).map
          FoodData.from_model := by
  refine ⟨?_, get_similar_eq_append rows name m⟩
  have h1 : ((rows.filter (fun r => containsSub r.description name)).take m).length ≤ m :=
    List.length_take_le _ _
  have h2 : ((rows.filter (fun r =>
      decide ((9 : ℚ) / 10 ≤ similarity r.description name))).take
        (m - ((rows.filter (fun r => containsSub r.description name)).take m).length)).length ≤
      m - ((rows.filter (fun r => containsSub r.description name)).take m).length :=
    List.length_take_le _ _
  rw [get_similar_eq_append rows name m, List.length_append, List.length_map, List.length_map]
  omega

/-- C6 counterexample: with the single row `aaaab` (which both contains the
query name and has similarity `1`) and `max_results = 2`, the generator
yields that same record twice: the second phase rescans the rows already
yielded by the first phase instead of only the remaining ones. -/
theorem find_similar_rescan_duplicate_counterexample :
    get_similar_food_by_name [rowC] "aaaab" 2 =
      [FoodData.from_model rowC, FoodData.from_model rowC] ∧
    containsSub rowC.description "aaaab" = true := by
  refine ⟨?_, by decide⟩
  have hsc : (9 : ℚ) / 10 ≤ similarity rowC.description "aaaab" := sim_aaaab_aaaab_ge
  have hcol : collectSimilar [rowC] "aaaab" 1 = [rowC] := by
    simp only [collectSimilar]
    rw [if_pos hsc, if_pos (show (1 : Nat) ≤ 1 from by decide)]
  have hfilter : [rowC].filter (fun r => containsSub r.description "aaaab") = [rowC] := by
    decide
  simp only [get_similar_food_by_name, hfilter]
  rw [show List.take 2 [rowC] = [rowC] from rfl]
  rw [if_pos (show [rowC].length < 2 from by decide)]
  rw [show (2 : Nat) - [rowC].length = 1 from rfl]
  rw [hcol]
  rfl

/-- C6 amended: the first phase yields exactly the records whose description
contains the query name, in storage order and limited to `max_results`; the
second phase scans the whole table from the start (not only the remaining
records), appending similarity matches up to the remaining quota, so records
yielded by the first phase can be yielded again. -/
theorem find_similar_phase_characterization (rows : List ExternalFoodModel)
    (name : String) (m : Nat) :
    (get_similar_food_by_name rows name m).take
        ((rows.filter (fun r => containsSub r.description name)).take m).length =
      ((rows.filter (fun r => containsSub r.description name)).take m).map
        FoodData.from_model ∧
    (get_similar_food_by_name rows name m).drop
        ((rows.filter (fun r => containsSub r.description name)).take m).length =
      ((rows.filter (fun r =>
          decide ((9 : ℚ) / 10 ≤ similarity r.description name))).take
        (m - ((rows.filter (fun r => containsSub r.description name)).take m).length)).map
        FoodData.from_model := by
  have hlen : (((rows.filter (fun r => containsSub r.description name)).take m).map
      FoodData.from_model).length =
      ((rows.filter (fun r => containsSub r.description name)).take m).length :=
    List.length_map _ _
  constructor
  · rw [get_similar_eq_append rows name m, ← hlen, List.take_left]
  · rw [get_similar_eq_append rows name m, ← hlen, List.drop_left]

end CalorieApp
